import Mathlib

/-!
Verification of the data layer of server.js (link/category managers,
configuration registry, document store load/merge).  JS objects that may
lack keys are modeled with Option-valued fields; timestamps are passed in
explicitly as natural numbers; machine handling of HTTP is abstracted to
an error type with the three failure kinds used by the handlers.
-/

namespace ServerCrate

/-- A stored link, as created by the POST /api/links handler. -/
structure Link where
  id : Int
  name : String
  url : String
  categoryId : Option Int
  createdAt : Nat
  updatedAt : Option Nat
deriving DecidableEq

/-- A stored category.  The default NAVIGATION category has id -1, order -1
and isDefault true; user categories are created without an isDefault key,
which every read treats as false, so it is modeled as the field being false. -/
structure Category where
  id : Int
  name : String
  «private» : Bool
  order : Int
  isDefault : Bool
  createdAt : Nat
deriving DecidableEq

/-- filterConfig object; keys may be absent (Option none). -/
structure FilterConfig where
  enabled : Option Bool
  keyword : Option String
deriving DecidableEq

/-- colorConfig object. -/
structure ColorConfig where
  primaryColor : Option String
deriving DecidableEq

/-- chatConfig object. -/
structure ChatConfig where
  provider : Option String
  apiUrl : Option String
  chatflowId : Option String
  ollamaBaseUrl : Option String
  ollamaModel : Option String
deriving DecidableEq

/-- The in-memory document (the module-level `data` object of server.js). -/
structure DocState where
  links : List Link
  categories : List Category
  nextId : Int
  nextCategoryId : Int
  homepageMessage : String
  siteTitle : String
  chatConfig : ChatConfig
  filterConfig : FilterConfig
  colorConfig : ColorConfig
deriving DecidableEq

/-- The default data structure (lines 77-98 of server.js). -/
def defaultData : DocState :=
  { links := []
    categories := []
    nextId := 1
    nextCategoryId := 1
    homepageMessage := "Welcome to your local network hub"
    siteTitle := "Local Network Hub"
    chatConfig :=
      { provider := some "flowise", apiUrl := some "", chatflowId := some ""
        ollamaBaseUrl := some "", ollamaModel := some "" }
    filterConfig := { enabled := some false, keyword := some "</think>" }
    colorConfig := { primaryColor := some "#330099" } }

/-- The default NAVIGATION category synthesized by ensureNavigationCategory. -/
def navCategory (now : Nat) : Category :=
  { id := -1, name := "NAVIGATION", «private» := false, order := -1
    isDefault := true, createdAt := now }

/-- ensureNavigationCategory (server.js lines 103-128): if no category is a
default named NAVIGATION, unshift one and bump a non-positive nextCategoryId. -/
def ensureNavigationCategory (now : Nat) (d : DocState) : DocState :=
  if d.categories.any (fun c => c.name == "NAVIGATION" && c.isDefault) then d
  else
    { d with
      categories := navCategory now :: d.categories
      nextCategoryId := if d.nextCategoryId ≤ 0 then 1 else d.nextCategoryId }

/-- The error kinds produced by the HTTP handlers: 400 validation errors,
404 not-found, and the 400 refusal to delete the default category. -/
inductive ApiError where
  | validation (msg : String)
  | notFound (msg : String)
  | forbidden (msg : String)
deriving DecidableEq

/-- JS String.prototype.trim: strip leading and trailing whitespace
(kernel-computable model of String.trim). -/
def jsTrim (s : String) : String :=
  String.mk
    (((s.data.dropWhile Char.isWhitespace).reverse.dropWhile Char.isWhitespace).reverse)

/-- validateRequiredFields for a string field: the value must be truthy and
trim to a non-empty string. -/
def requiredOk (s : String) : Bool := jsTrim s != ""

/-- The JS expression `categoryId ? parseInt(categoryId) : null` on a numeric
payload: null/absent and the falsy value 0 map to null. -/
def coerceCategoryId : Option Int → Option Int
  | none => none
  | some c => if c = 0 then none else some c

/-- Replace the first element satisfying p (JS findIndex + assignment). -/
def mapFirst (p : α → Bool) (f : α → α) : List α → List α
  | [] => []
  | x :: xs => if p x then f x :: xs else x :: mapFirst p f xs

/-- Remove the first element satisfying p (JS findIndex + splice). -/
def eraseFirst (p : α → Bool) : List α → List α
  | [] => []
  | x :: xs => if p x then xs else x :: eraseFirst p xs

/-- Stable insertion of a category into a list sorted ascending by order. -/
def insertByOrder (c : Category) : List Category → List Category
  | [] => [c]
  | x :: xs => if x.order ≤ c.order then x :: insertByOrder c xs else c :: x :: xs

/-- Stable ascending sort by the order field, modeling the stable JS
`sort((a, b) => (a.order || 0) - (b.order || 0))` (order is always an
integer here, and `x || 0` is the identity on integers). -/
def sortByOrder : List Category → List Category
  | [] => []
  | x :: xs => insertByOrder x (sortByOrder xs)

/-- GET /api/categories: categories sorted by order (non-mutating). -/
def listCategories (d : DocState) : List Category := sortByOrder d.categories

/-- The link record built by POST /api/links. -/
def newLinkOf (now : Nat) (name url : String) (categoryId : Option Int)
    (d : DocState) : Link :=
  { id := d.nextId, name := jsTrim name, url := jsTrim url
    categoryId := coerceCategoryId categoryId, createdAt := now, updatedAt := none }

/-- POST /api/links (lines 351-371). -/
def createLink (now : Nat) (name url : String) (categoryId : Option Int)
    (d : DocState) : Except ApiError (Link × DocState) :=
  if !(requiredOk name && requiredOk url) then
    .error (.validation "Missing required fields")
  else
    .ok (newLinkOf now name url categoryId d,
         { d with nextId := d.nextId + 1
                  links := d.links ++ [newLinkOf now name url categoryId d] })

/-- The field replacement performed by PUT /api/links/:id on the found link. -/
def updateLinkFields (now : Nat) (name url : String) (categoryId : Option Int)
    (l : Link) : Link :=
  { l with name := jsTrim name, url := jsTrim url
           categoryId := coerceCategoryId categoryId, updatedAt := some now }

/-- PUT /api/links/:id (lines 379-405): validation first, then findIndex. -/
def updateLink (now : Nat) (id : Int) (name url : String) (categoryId : Option Int)
    (d : DocState) : Except ApiError (Link × DocState) :=
  if !(requiredOk name && requiredOk url) then
    .error (.validation "Missing required fields")
  else
    match d.links.find? (fun l => l.id == id) with
    | none => .error (.notFound "Link not found")
    | some old =>
        .ok (updateLinkFields now name url categoryId old,
             { d with links := mapFirst (fun l => l.id == id)
                              (updateLinkFields now name url categoryId) d.links })

/-- DELETE /api/links/:id (lines 410-422). -/
def deleteLink (id : Int) (d : DocState) : Except ApiError DocState :=
  match d.links.find? (fun l => l.id == id) with
  | none => .error (.notFound "Link not found")
  | some _ => .ok { d with links := eraseFirst (fun l => l.id == id) d.links }

/-- The category record built by POST /api/categories: order is the current
total category count; no isDefault key is written (falsy, modeled false). -/
def newCategoryOf (now : Nat) (name : String) (d : DocState) : Category :=
  { id := d.nextCategoryId, name := jsTrim name, «private» := false
    order := (d.categories.length : Int), isDefault := false, createdAt := now }

/-- POST /api/categories (lines 457-477). -/
def createCategory (now : Nat) (name : String) (d : DocState) :
    Except ApiError (Category × DocState) :=
  if !(requiredOk name) then
    .error (.validation "Missing required fields")
  else
    .ok (newCategoryOf now name d,
         { d with nextCategoryId := d.nextCategoryId + 1
                  categories := d.categories ++ [newCategoryOf now name d] })

/-- Clearing of a deleted category from a link (lines 497-501). -/
def orphanLink (id : Int) (l : Link) : Link :=
  if l.categoryId == some id then { l with categoryId := none } else l

/-- DELETE /api/categories/:id (lines 482-507): NotFound if absent, refusal
if the found category isDefault, else null out referencing links and splice. -/
def deleteCategory (id : Int) (d : DocState) : Except ApiError DocState :=
  match d.categories.find? (fun c => c.id == id) with
  | none => .error (.notFound "Category not found")
  | some cat =>
      if cat.isDefault then
        .error (.forbidden "Cannot delete default system category")
      else
        .ok { d with links := d.links.map (orphanLink id)
                     categories := eraseFirst (fun c => c.id == id) d.categories }

/-- PATCH /api/categories/:id/privacy (lines 512-526): no isDefault check;
Boolean(isPrivate) with an absent key coercing to false. -/
def setPrivacy (id : Int) (isPrivate : Option Bool) (d : DocState) :
    Except ApiError (Category × DocState) :=
  match d.categories.find? (fun c => c.id == id) with
  | none => .error (.notFound "Category not found")
  | some cat =>
      .ok ({ cat with «private» := isPrivate.getD false },
           { d with categories := mapFirst (fun c => c.id == id)
                      (fun c => { c with «private» := isPrivate.getD false }) d.categories })

/-- One reorder assignment: set order on the first category with that id. -/
def applyAssignment (cats : List Category) (a : Int × Int) : List Category :=
  mapFirst (fun c => c.id == a.1) (fun c => { c with order := a.2 }) cats

/-- POST /api/categories/reorder (lines 531-561): apply each assignment to
the first matching category (unknown ids ignored), then stable-sort by order.
An empty array stringifies to "" in JS and fails the required-field check. -/
def reorderCategories (assignments : List (Int × Int)) (d : DocState) :
    Except ApiError DocState :=
  if assignments.isEmpty then
    .error (.validation "Missing required fields")
  else
    .ok { d with categories := sortByOrder (assignments.foldl applyAssignment d.categories) }

/-- The 6-digit hex test /^#[0-9A-F]{6}$/i of POST /api/color-config. -/
def isHexDigitChar (ch : Char) : Bool :=
  ch.isDigit || (ch ≥ 'A' && ch ≤ 'F') || (ch ≥ 'a' && ch ≤ 'f')

/-- Whether a string matches the anchored case-insensitive 6-digit hex regex. -/
def isHexColor (s : String) : Bool :=
  match s.toList with
  | '#' :: rest => rest.length == 6 && rest.all isHexDigitChar
  | _ => false

/-- POST /api/color-config (lines 732-750): required-field check, hex check,
then whole-object replace of colorConfig. -/
def setColorConfig (c : String) (d : DocState) : Except ApiError DocState :=
  if !(requiredOk c) then
    .error (.validation "Missing required fields")
  else if !(isHexColor c) then
    .error (.validation "Valid hex color code is required")
  else
    .ok { d with colorConfig := { primaryColor := some c } }

/-- GET /api/color-config (lines 725-727). -/
def getColorConfig (d : DocState) : ColorConfig := d.colorConfig

/-- Run a color update, keeping the old state when the handler errors. -/
def runSetColorConfig (c : String) (d : DocState) : DocState :=
  match setColorConfig c d with
  | .ok d' => d'
  | .error _ => d

/-! ## The document store: loadData -/

/-- The persisted JSON document: every top-level key may be absent. -/
structure PersistedDoc where
  links : Option (List Link) := none
  categories : Option (List Category) := none
  nextId : Option Int := none
  nextCategoryId : Option Int := none
  homepageMessage : Option String := none
  siteTitle : Option String := none
  chatConfig : Option ChatConfig := none
  filterConfig : Option FilterConfig := none
  colorConfig : Option ColorConfig := none
deriving DecidableEq

/-- The three possible outcomes of reading the data file: no file on disk,
an exception while reading or parsing it, or a successfully parsed document. -/
inductive LoadInput where
  | missing
  | unreadable
  | parsed (p : PersistedDoc)
deriving DecidableEq

/-- JS object-spread merge of one optional key: the right side wins if present. -/
def mergeKey (a b : Option α) : Option α :=
  match b with
  | some v => some v
  | none => a

/-- Object-spread merge of two filterConfig objects. -/
def mergeFilterConfig (a b : FilterConfig) : FilterConfig :=
  { enabled := mergeKey a.enabled b.enabled, keyword := mergeKey a.keyword b.keyword }

/-- Object-spread merge of two chatConfig objects. -/
def mergeChatConfig (a b : ChatConfig) : ChatConfig :=
  { provider := mergeKey a.provider b.provider
    apiUrl := mergeKey a.apiUrl b.apiUrl
    chatflowId := mergeKey a.chatflowId b.chatflowId
    ollamaBaseUrl := mergeKey a.ollamaBaseUrl b.ollamaBaseUrl
    ollamaModel := mergeKey a.ollamaModel b.ollamaModel }

/-- Object-spread merge of two colorConfig objects. -/
def mergeColorConfig (a b : ColorConfig) : ColorConfig :=
  { primaryColor := mergeKey a.primaryColor b.primaryColor }

/-- The top-level merge `data = { ...data, ...loadedData }` (line 145):
every key present in the persisted copy overwrites the default, the nested
config objects included (they are replaced wholesale at this point). -/
def topLevelMerge (d : DocState) (p : PersistedDoc) : DocState :=
  { links := p.links.getD d.links
    categories := p.categories.getD d.categories
    nextId := p.nextId.getD d.nextId
    nextCategoryId := p.nextCategoryId.getD d.nextCategoryId
    homepageMessage := p.homepageMessage.getD d.homepageMessage
    siteTitle := p.siteTitle.getD d.siteTitle
    chatConfig := p.chatConfig.getD d.chatConfig
    filterConfig := p.filterConfig.getD d.filterConfig
    colorConfig := p.colorConfig.getD d.colorConfig }

/-- The per-config re-merges of lines 148-156, executed after the top-level
merge and therefore spreading each already-replaced config with itself. -/
def configMerges (d : DocState) (p : PersistedDoc) : DocState :=
  { d with
    chatConfig := match p.chatConfig with
      | some pc => mergeChatConfig d.chatConfig pc
      | none => d.chatConfig
    filterConfig := match p.filterConfig with
      | some pf => mergeFilterConfig d.filterConfig pf
      | none => d.filterConfig
    colorConfig := match p.colorConfig with
      | some pc => mergeColorConfig d.colorConfig pc
      | none => d.colorConfig }

/-- loadData (lines 133-167).  On a successful read the merges run and the
function concludes with ensureNavigationCategory; if reading or parsing
throws, the catch block leaves the defaults in place and, because the repair
call sits inside the try block, skips ensureNavigationCategory as well. -/
def loadData (now : Nat) : LoadInput → DocState
  | .missing => ensureNavigationCategory now defaultData
  | .unreadable => defaultData
  | .parsed p => ensureNavigationCategory now (configMerges (topLevelMerge defaultData p) p)

/-- The state of a fresh store: loadData at startup with no persisted file. -/
def initialState : DocState := loadData 0 .missing

/-! ## Operation traces -/

/-- The mutating link/category operations, for reasoning about sequences. -/
inductive Op where
  | createLink (now : Nat) (name url : String) (categoryId : Option Int)
  | updateLink (now : Nat) (id : Int) (name url : String) (categoryId : Option Int)
  | deleteLink (id : Int)
  | createCategory (now : Nat) (name : String)
  | deleteCategory (id : Int)
  | setPrivacy (id : Int) (isPrivate : Option Bool)
  | reorderCategories (assignments : List (Int × Int))
deriving DecidableEq

/-- Apply one operation; a handler that errors leaves the document unchanged. -/
def applyOp (d : DocState) : Op → DocState
  | .createLink now n u c =>
      match createLink now n u c d with
      | .ok (_, d') => d'
      | .error _ => d
  | .updateLink now i n u c =>
      match updateLink now i n u c d with
      | .ok (_, d') => d'
      | .error _ => d
  | .deleteLink i =>
      match deleteLink i d with
      | .ok d' => d'
      | .error _ => d
  | .createCategory now n =>
      match createCategory now n d with
      | .ok (_, d') => d'
      | .error _ => d
  | .deleteCategory i =>
      match deleteCategory i d with
      | .ok d' => d'
      | .error _ => d
  | .setPrivacy i p =>
      match setPrivacy i p d with
      | .ok (_, d') => d'
      | .error _ => d
  | .reorderCategories a =>
      match reorderCategories a d with
      | .ok d' => d'
      | .error _ => d

/-- Run a sequence of operations from a starting document. -/
def run (d : DocState) (ops : List Op) : DocState := ops.foldl applyOp d

/-- The link ids handed out by successful link creations along a trace. -/
def issuedLinkIds (d : DocState) : List Op → List Int
  | [] => []
  | op :: ops =>
      (match op with
       | .createLink now n u c =>
           match createLink now n u c d with
           | .ok (l, _) => [l.id]
           | .error _ => []
       | _ => []) ++ issuedLinkIds (applyOp d op) ops

/-- The category ids handed out by successful category creations along a trace. -/
def issuedCategoryIds (d : DocState) : List Op → List Int
  | [] => []
  | op :: ops =>
      (match op with
       | .createCategory now n =>
           match createCategory now n d with
           | .ok (c, _) => [c.id]
           | .error _ => []
       | _ => []) ++ issuedCategoryIds (applyOp d op) ops

/-- Whether a document currently has a category with the given id. -/
def catHas (d : DocState) (k : Int) : Bool :=
  d.categories.any (fun c => c.id == k)

/-- Referential integrity: every non-null link.categoryId names an existing
category. -/
def linkRefsValid (d : DocState) : Bool :=
  d.links.all fun l =>
    match l.categoryId with
    | none => true
    | some k => catHas d k

/-- The condition that the categoryId a single operation feeds to link
create/update names a currently existing category (the handlers themselves
never check this). -/
def opCidOk (d : DocState) : Op → Prop
  | .createLink _ _ _ c => ∀ k, coerceCategoryId c = some k → catHas d k = true
  | .updateLink _ _ _ _ c => ∀ k, coerceCategoryId c = some k → catHas d k = true
  | _ => True

/-- The hypothesis that every categoryId a trace feeds to link create/update
names a category existing at the moment the operation runs. -/
def opsCategoryIdsValid (d : DocState) : List Op → Prop
  | [] => True
  | op :: ops => opCidOk d op ∧ opsCategoryIdsValid (applyOp d op) ops

/-! ## Concrete test fixtures -/

/-- A persisted document whose filterConfig has an enabled key but no
keyword key (an older file written before the keyword key existed). -/
def oldFilterFile : PersistedDoc :=
  { filterConfig := some { enabled := some true, keyword := none } }

/-- The category created by POST {name: "Tools"} against the fresh store. -/
def toolsCategory : Category :=
  { id := 1, name := "Tools", «private» := false, order := 1
    isDefault := false, createdAt := 0 }

/-- The fresh store after creating the Tools category. -/
def storeWithTools : DocState := run initialState [Op.createCategory 0 "Tools"]

/-- The link created by POST {name: "Router", url: "http://r"} on the fresh store. -/
def routerLink : Link :=
  { id := 1, name := "Router", url := "http://r", categoryId := none
    createdAt := 0, updatedAt := none }

/-- The fresh store after creating the Router link. -/
def storeWithRouter : DocState := run initialState [Op.createLink 0 "Router" "http://r" none]

/-- A document that already holds a link whose id equals nextId (possible in
a hand-edited or inconsistent persisted file, never produced by the API). -/
def staleCounterState : DocState :=
  { defaultData with
    links := [{ id := 1, name := "old", url := "http://o", categoryId := none
                createdAt := 0, updatedAt := none }]
    nextId := 1 }

/-- A small trace with a deletion between two link creations. -/
def traceFixture : List Op :=
  [Op.createLink 0 "a" "http://a" none, Op.deleteLink 1,
   Op.createLink 0 "b" "http://b" none]

/-! ## List helper lemmas -/

theorem find?_append_false {α : Type} {p : α → Bool} :
    ∀ {l₁ : List α} (l₂ : List α), (∀ x ∈ l₁, p x = false) →
      (l₁ ++ l₂).find? p = l₂.find? p := by
  intro l₁
  induction l₁ with
  | nil => intro l₂ _; rfl
  | cons a l ih =>
      intro l₂ h
      have ha : p a = false := h a (List.mem_cons_self a l)
      rw [List.cons_append, List.find?_cons_of_neg _ (by simp [ha])]
      exact ih l₂ (fun x hx => h x (List.mem_cons_of_mem a hx))

theorem mapFirst_append_false {α : Type} {p : α → Bool} {f : α → α} :
    ∀ {l₁ : List α} (l₂ : List α), (∀ x ∈ l₁, p x = false) →
      mapFirst p f (l₁ ++ l₂) = l₁ ++ mapFirst p f l₂ := by
  intro l₁
  induction l₁ with
  | nil => intro l₂ _; rfl
  | cons a l ih =>
      intro l₂ h
      have ha : p a = false := h a (List.mem_cons_self a l)
      simp only [List.cons_append, mapFirst, ha, Bool.false_eq_true, if_false,
                 List.append_eq]
      rw [ih l₂ (fun x hx => h x (List.mem_cons_of_mem a hx))]

theorem eraseFirst_append_false {α : Type} {p : α → Bool} :
    ∀ {l₁ : List α} (l₂ : List α), (∀ x ∈ l₁, p x = false) →
      eraseFirst p (l₁ ++ l₂) = l₁ ++ eraseFirst p l₂ := by
  intro l₁
  induction l₁ with
  | nil => intro l₂ _; rfl
  | cons a l ih =>
      intro l₂ h
      have ha : p a = false := h a (List.mem_cons_self a l)
      simp only [List.cons_append, eraseFirst, ha, Bool.false_eq_true, if_false,
                 List.append_eq]
      rw [ih l₂ (fun x hx => h x (List.mem_cons_of_mem a hx))]

theorem mapFirst_cons_pos {α : Type} {p : α → Bool} {f : α → α} {a : α}
    (l : List α) (h : p a = true) : mapFirst p f (a :: l) = f a :: l := by
  simp [mapFirst, h]

theorem eraseFirst_cons_pos {α : Type} {p : α → Bool} {a : α}
    (l : List α) (h : p a = true) : eraseFirst p (a :: l) = l := by
  simp [eraseFirst, h]

theorem find?_eq_some_split {α : Type} {p : α → Bool} :
    ∀ {l : List α} {a : α}, l.find? p = some a →
      ∃ pre suf, l = pre ++ a :: suf ∧ (∀ x ∈ pre, p x = false) ∧ p a = true := by
  intro l
  induction l with
  | nil => intro a h; simp [List.find?] at h
  | cons b l ih =>
      intro a h
      by_cases hb : p b = true
      · rw [List.find?_cons_of_pos _ hb] at h
        obtain rfl : b = a := by injection h
        exact ⟨[], l, rfl, by intro x hx; simp at hx, hb⟩
      · have hb' : p b = false := by revert hb; cases p b <;> simp
        rw [List.find?_cons_of_neg _ (by simp [hb'])] at h
        obtain ⟨pre, suf, hl, hpre, hpa⟩ := ih h
        refine ⟨b :: pre, suf, by rw [hl, List.cons_append], ?_, hpa⟩
        intro x hx
        rcases List.mem_cons.mp hx with rfl | hx
        · exact hb'
        · exact hpre x hx

theorem forall₂_map_self {α : Type} {f : α → α} {R : α → α → Prop}
    (h : ∀ a, R a (f a)) : ∀ l : List α, List.Forall₂ R l (l.map f) := by
  intro l
  induction l with
  | nil => exact List.Forall₂.nil
  | cons a l ih => exact List.Forall₂.cons (h a) ih

theorem mem_eraseFirst_of_false {α : Type} {p : α → Bool} {x : α} :
    ∀ {l : List α}, x ∈ l → p x = false → x ∈ eraseFirst p l := by
  intro l
  induction l with
  | nil => intro h; simp at h
  | cons a l ih =>
      intro hx hpx
      by_cases hpa : p a = true
      · rw [eraseFirst_cons_pos l hpa]
        rcases List.mem_cons.mp hx with rfl | hx
        · rw [hpa] at hpx; exact absurd hpx (by simp)
        · exact hx
      · have hpa' : p a = false := by revert hpa; cases p a <;> simp
        simp only [eraseFirst, hpa', Bool.false_eq_true, if_false]
        rcases List.mem_cons.mp hx with rfl | hx
        · exact List.mem_cons_self x _
        · exact List.mem_cons_of_mem a (ih hx hpx)

theorem eraseFirst_subset {α : Type} {p : α → Bool} :
    ∀ {l : List α} {x : α}, x ∈ eraseFirst p l → x ∈ l := by
  intro l
  induction l with
  | nil => intro x h; simp [eraseFirst] at h
  | cons a l ih =>
      intro x h
      by_cases hpa : p a = true
      · rw [eraseFirst_cons_pos l hpa] at h
        exact List.mem_cons_of_mem a h
      · have hpa' : p a = false := by revert hpa; cases p a <;> simp
        simp only [eraseFirst, hpa', Bool.false_eq_true, if_false] at h
        rcases List.mem_cons.mp h with rfl | h
        · exact List.mem_cons_self x _
        · exact List.mem_cons_of_mem a (ih h)

theorem mem_mapFirst {α : Type} {p : α → Bool} {f : α → α} :
    ∀ {l : List α} {x : α}, x ∈ mapFirst p f l → x ∈ l ∨ ∃ y ∈ l, x = f y := by
  intro l
  induction l with
  | nil => intro x h; simp [mapFirst] at h
  | cons a l ih =>
      intro x h
      by_cases hpa : p a = true
      · rw [mapFirst_cons_pos l hpa] at h
        rcases List.mem_cons.mp h with rfl | h
        · exact Or.inr ⟨a, List.mem_cons_self a l, rfl⟩
        · exact Or.inl (List.mem_cons_of_mem a h)
      · have hpa' : p a = false := by revert hpa; cases p a <;> simp
        simp only [mapFirst, hpa', Bool.false_eq_true, if_false] at h
        rcases List.mem_cons.mp h with rfl | h
        · exact Or.inl (List.mem_cons_self x _)
        · rcases ih h with h | ⟨y, hy, rfl⟩
          · exact Or.inl (List.mem_cons_of_mem a h)
          · exact Or.inr ⟨y, List.mem_cons_of_mem a hy, rfl⟩

theorem mapFirst_any {α : Type} {p f_p : α → Bool} {f : α → α}
    (h : ∀ x, f_p (f x) = f_p x) :
    ∀ l : List α, (mapFirst p f l).any f_p = l.any f_p := by
  intro l
  induction l with
  | nil => rfl
  | cons a l ih =>
      by_cases hpa : p a = true
      · rw [mapFirst_cons_pos l hpa, List.any_cons, List.any_cons, h a]
      · have hpa' : p a = false := by revert hpa; cases p a <;> simp
        simp only [mapFirst, hpa', Bool.false_eq_true, if_false,
                   List.any_cons, ih]

theorem insertByOrder_any (q : Category → Bool) (c : Category) :
    ∀ l : List Category, (insertByOrder c l).any q = (q c || l.any q) := by
  intro l
  induction l with
  | nil => simp [insertByOrder]
  | cons x xs ih =>
      by_cases hx : x.order ≤ c.order
      · simp only [insertByOrder, if_pos hx, List.any_cons, ih]
        cases q x <;> cases q c <;> simp
      · simp only [insertByOrder, if_neg hx, List.any_cons]

theorem sortByOrder_any (q : Category → Bool) :
    ∀ l : List Category, (sortByOrder l).any q = l.any q := by
  intro l
  induction l with
  | nil => rfl
  | cons x xs ih =>
      simp only [sortByOrder, insertByOrder_any, ih, List.any_cons]

/-! ## Operation characterization lemmas -/

theorem createLink_ok {now : Nat} {n u : String} {c : Option Int} {d : DocState}
    {l : Link} {d' : DocState} (h : createLink now n u c d = .ok (l, d')) :
    (requiredOk n && requiredOk u) = true ∧
    l = newLinkOf now n u c d ∧
    d' = { d with nextId := d.nextId + 1, links := d.links ++ [l] } := by
  unfold createLink at h
  split at h
  · exact absurd h (by simp)
  · next hv =>
      simp only [Except.ok.injEq, Prod.mk.injEq] at h
      obtain ⟨rfl, rfl⟩ := h
      refine ⟨?_, rfl, rfl⟩
      revert hv
      cases requiredOk n && requiredOk u <;> simp

theorem updateLink_ok {now : Nat} {id : Int} {n u : String} {c : Option Int}
    {d : DocState} {l : Link} {d' : DocState}
    (h : updateLink now id n u c d = .ok (l, d')) :
    (requiredOk n && requiredOk u) = true ∧
    ∃ old, d.links.find? (fun x => x.id == id) = some old ∧
      l = updateLinkFields now n u c old ∧
      d' = { d with links := mapFirst (fun x => x.id == id)
                      (updateLinkFields now n u c) d.links } := by
  unfold updateLink at h
  split at h
  · exact absurd h (by simp)
  · next hv =>
      refine ⟨by revert hv; cases requiredOk n && requiredOk u <;> simp, ?_⟩
      split at h
      · exact absurd h (by simp)
      · next old hold =>
          simp only [Except.ok.injEq, Prod.mk.injEq] at h
          obtain ⟨rfl, rfl⟩ := h
          exact ⟨old, hold, rfl, rfl⟩

theorem deleteLink_ok {id : Int} {d d' : DocState}
    (h : deleteLink id d = .ok d') :
    (∃ x, d.links.find? (fun l => l.id == id) = some x) ∧
    d' = { d with links := eraseFirst (fun l => l.id == id) d.links } := by
  unfold deleteLink at h
  split at h
  · exact absurd h (by simp)
  · next x hx =>
      simp only [Except.ok.injEq] at h
      exact ⟨⟨x, hx⟩, h.symm⟩

theorem createCategory_ok {now : Nat} {n : String} {d : DocState}
    {cat : Category} {d' : DocState}
    (h : createCategory now n d = .ok (cat, d')) :
    requiredOk n = true ∧
    cat = newCategoryOf now n d ∧
    d' = { d with nextCategoryId := d.nextCategoryId + 1
                  categories := d.categories ++ [cat] } := by
  unfold createCategory at h
  split at h
  · exact absurd h (by simp)
  · next hv =>
      simp only [Except.ok.injEq, Prod.mk.injEq] at h
      obtain ⟨rfl, rfl⟩ := h
      refine ⟨?_, rfl, rfl⟩
      revert hv
      cases requiredOk n <;> simp

theorem deleteCategory_ok {id : Int} {d d' : DocState}
    (h : deleteCategory id d = .ok d') :
    ∃ cat, d.categories.find? (fun c => c.id == id) = some cat ∧
      cat.isDefault = false ∧
      d' = { d with links := d.links.map (orphanLink id)
                    categories := eraseFirst (fun c => c.id == id) d.categories } := by
  unfold deleteCategory at h
  split at h
  · exact absurd h (by simp)
  · next cat hcat =>
      split at h
      · exact absurd h (by simp)
      · next hdef =>
          simp only [Except.ok.injEq] at h
          exact ⟨cat, hcat, by revert hdef; cases cat.isDefault <;> simp, h.symm⟩

theorem setPrivacy_ok {id : Int} {p : Option Bool} {d : DocState}
    {cat' : Category} {d' : DocState}
    (h : setPrivacy id p d = .ok (cat', d')) :
    ∃ cat, d.categories.find? (fun c => c.id == id) = some cat ∧
      cat' = { cat with «private» := p.getD false } ∧
      d' = { d with categories := mapFirst (fun c => c.id == id)
                      (fun c => { c with «private» := p.getD false }) d.categories } := by
  unfold setPrivacy at h
  split at h
  · exact absurd h (by simp)
  · next cat hcat =>
      simp only [Except.ok.injEq, Prod.mk.injEq] at h
      obtain ⟨rfl, rfl⟩ := h
      exact ⟨cat, hcat, rfl, rfl⟩

theorem reorderCategories_ok {a : List (Int × Int)} {d d' : DocState}
    (h : reorderCategories a d = .ok d') :
    d' = { d with categories := sortByOrder (a.foldl applyAssignment d.categories) } := by
  unfold reorderCategories at h
  split at h
  · exact absurd h (by simp)
  · simp only [Except.ok.injEq] at h
    exact h.symm

/-! ## Counter facts about applyOp and run -/

theorem run_nil (d : DocState) : run d [] = d := rfl

theorem run_cons (d : DocState) (op : Op) (ops : List Op) :
    run d (op :: ops) = run (applyOp d op) ops := rfl

theorem applyOp_nextId_le (d : DocState) (op : Op) :
    d.nextId ≤ (applyOp d op).nextId := by
  cases op with
  | createLink now n u c =>
      simp only [applyOp]
      cases h : createLink now n u c d with
      | error e => exact le_refl _
      | ok v =>
          obtain ⟨l, d'⟩ := v
          obtain ⟨-, -, rfl⟩ := createLink_ok h
          simp
  | updateLink now i n u c =>
      simp only [applyOp]
      cases h : updateLink now i n u c d with
      | error e => exact le_refl _
      | ok v =>
          obtain ⟨l, d'⟩ := v
          obtain ⟨-, old, -, -, rfl⟩ := updateLink_ok h
          exact le_refl _
  | deleteLink i =>
      simp only [applyOp]
      cases h : deleteLink i d with
      | error e => exact le_refl _
      | ok d' =>
          obtain ⟨-, rfl⟩ := deleteLink_ok h
          exact le_refl _
  | createCategory now n =>
      simp only [applyOp]
      cases h : createCategory now n d with
      | error e => exact le_refl _
      | ok v =>
          obtain ⟨cat, d'⟩ := v
          obtain ⟨-, -, rfl⟩ := createCategory_ok h
          exact le_refl _
  | deleteCategory i =>
      simp only [applyOp]
      cases h : deleteCategory i d with
      | error e => exact le_refl _
      | ok d' =>
          obtain ⟨cat, -, -, rfl⟩ := deleteCategory_ok h
          exact le_refl _
  | setPrivacy i p =>
      simp only [applyOp]
      cases h : setPrivacy i p d with
      | error e => exact le_refl _
      | ok v =>
          obtain ⟨cat', d'⟩ := v
          obtain ⟨cat, -, -, rfl⟩ := setPrivacy_ok h
          exact le_refl _
  | reorderCategories a =>
      simp only [applyOp]
      cases h : reorderCategories a d with
      | error e => exact le_refl _
      | ok d' =>
          obtain rfl := reorderCategories_ok h
          exact le_refl _

theorem applyOp_nextCategoryId_le (d : DocState) (op : Op) :
    d.nextCategoryId ≤ (applyOp d op).nextCategoryId := by
  cases op with
  | createLink now n u c =>
      simp only [applyOp]
      cases h : createLink now n u c d with
      | error e => exact le_refl _
      | ok v =>
          obtain ⟨l, d'⟩ := v
          obtain ⟨-, -, rfl⟩ := createLink_ok h
          exact le_refl _
  | updateLink now i n u c =>
      simp only [applyOp]
      cases h : updateLink now i n u c d with
      | error e => exact le_refl _
      | ok v =>
          obtain ⟨l, d'⟩ := v
          obtain ⟨-, old, -, -, rfl⟩ := updateLink_ok h
          exact le_refl _
  | deleteLink i =>
      simp only [applyOp]
      cases h : deleteLink i d with
      | error e => exact le_refl _
      | ok d' =>
          obtain ⟨-, rfl⟩ := deleteLink_ok h
          exact le_refl _
  | createCategory now n =>
      simp only [applyOp]
      cases h : createCategory now n d with
      | error e => exact le_refl _
      | ok v =>
          obtain ⟨cat, d'⟩ := v
          obtain ⟨-, -, rfl⟩ := createCategory_ok h
          simp
  | deleteCategory i =>
      simp only [applyOp]
      cases h : deleteCategory i d with
      | error e => exact le_refl _
      | ok d' =>
          obtain ⟨cat, -, -, rfl⟩ := deleteCategory_ok h
          exact le_refl _
  | setPrivacy i p =>
      simp only [applyOp]
      cases h : setPrivacy i p d with
      | error e => exact le_refl _
      | ok v =>
          obtain ⟨cat', d'⟩ := v
          obtain ⟨cat, -, -, rfl⟩ := setPrivacy_ok h
          exact le_refl _
  | reorderCategories a =>
      simp only [applyOp]
      cases h : reorderCategories a d with
      | error e => exact le_refl _
      | ok d' =>
          obtain rfl := reorderCategories_ok h
          exact le_refl _

theorem run_nextId_le (ops : List Op) : ∀ d : DocState, d.nextId ≤ (run d ops).nextId := by
  induction ops with
  | nil => intro d; exact le_refl _
  | cons op ops ih =>
      intro d
      rw [run_cons]
      exact le_trans (applyOp_nextId_le d op) (ih (applyOp d op))

theorem run_nextCategoryId_le (ops : List Op) :
    ∀ d : DocState, d.nextCategoryId ≤ (run d ops).nextCategoryId := by
  induction ops with
  | nil => intro d; exact le_refl _
  | cons op ops ih =>
      intro d
      rw [run_cons]
      exact le_trans (applyOp_nextCategoryId_le d op) (ih (applyOp d op))

theorem issuedLinkIds_ge (ops : List Op) :
    ∀ (d : DocState) (i : Int), i ∈ issuedLinkIds d ops → d.nextId ≤ i := by
  induction ops with
  | nil => intro d i hi; simp [issuedLinkIds] at hi
  | cons op ops ih =>
      intro d i hi
      have step : d.nextId ≤ (applyOp d op).nextId := applyOp_nextId_le d op
      cases op
      case createLink now n u c =>
        simp only [issuedLinkIds] at hi
        cases hc : createLink now n u c d with
        | error e =>
            rw [hc] at hi
            simp only [List.nil_append] at hi
            exact le_trans step (ih _ i hi)
        | ok v =>
            obtain ⟨l, s⟩ := v
            rw [hc] at hi
            simp only [List.singleton_append, List.mem_cons] at hi
            rcases hi with rfl | hi
            · have h1 := createLink_ok hc
              rw [h1.2.1]
              exact le_refl _
            · exact le_trans step (ih _ i hi)
      all_goals simp only [issuedLinkIds, List.nil_append] at hi
      all_goals exact le_trans step (ih _ i hi)

theorem issuedCategoryIds_ge (ops : List Op) :
    ∀ (d : DocState) (i : Int), i ∈ issuedCategoryIds d ops → d.nextCategoryId ≤ i := by
  induction ops with
  | nil => intro d i hi; simp [issuedCategoryIds] at hi
  | cons op ops ih =>
      intro d i hi
      have step : d.nextCategoryId ≤ (applyOp d op).nextCategoryId :=
        applyOp_nextCategoryId_le d op
      cases op
      case createCategory now n =>
        simp only [issuedCategoryIds] at hi
        cases hc : createCategory now n d with
        | error e =>
            rw [hc] at hi
            simp only [List.nil_append] at hi
            exact le_trans step (ih _ i hi)
        | ok v =>
            obtain ⟨cat, s⟩ := v
            rw [hc] at hi
            simp only [List.singleton_append, List.mem_cons] at hi
            rcases hi with rfl | hi
            · have h1 := createCategory_ok hc
              rw [h1.2.1]
              exact le_refl _
            · exact le_trans step (ih _ i hi)
      all_goals simp only [issuedCategoryIds, List.nil_append] at hi
      all_goals exact le_trans step (ih _ i hi)

theorem issuedLinkIds_lt (ops : List Op) :
    ∀ (d : DocState) (i : Int), i ∈ issuedLinkIds d ops → i < (run d ops).nextId := by
  induction ops with
  | nil => intro d i hi; simp [issuedLinkIds] at hi
  | cons op ops ih =>
      intro d i hi
      rw [run_cons]
      cases op
      case createLink now n u c =>
        simp only [issuedLinkIds] at hi
        cases hc : createLink now n u c d with
        | error e =>
            rw [hc] at hi
            simp only [List.nil_append] at hi
            exact ih _ i hi
        | ok v =>
            obtain ⟨l, s⟩ := v
            rw [hc] at hi
            simp only [List.singleton_append, List.mem_cons] at hi
            rcases hi with rfl | hi
            · have h1 := createLink_ok hc
              have happ : applyOp d (Op.createLink now n u c) = s := by
                simp [applyOp, hc]
              have hid : l.id = d.nextId := by rw [h1.2.1]; rfl
              have hs : s.nextId = d.nextId + 1 := by rw [h1.2.2]
              have hrun := run_nextId_le ops s
              rw [happ]
              omega
            · exact ih _ i hi
      all_goals simp only [issuedLinkIds, List.nil_append] at hi
      all_goals exact ih _ i hi

theorem issuedCategoryIds_lt (ops : List Op) :
    ∀ (d : DocState) (i : Int), i ∈ issuedCategoryIds d ops →
      i < (run d ops).nextCategoryId := by
  induction ops with
  | nil => intro d i hi; simp [issuedCategoryIds] at hi
  | cons op ops ih =>
      intro d i hi
      rw [run_cons]
      cases op
      case createCategory now n =>
        simp only [issuedCategoryIds] at hi
        cases hc : createCategory now n d with
        | error e =>
            rw [hc] at hi
            simp only [List.nil_append] at hi
            exact ih _ i hi
        | ok v =>
            obtain ⟨cat, s⟩ := v
            rw [hc] at hi
            simp only [List.singleton_append, List.mem_cons] at hi
            rcases hi with rfl | hi
            · have h1 := createCategory_ok hc
              have happ : applyOp d (Op.createCategory now n) = s := by
                simp [applyOp, hc]
              have hid : cat.id = d.nextCategoryId := by rw [h1.2.1]; rfl
              have hs : s.nextCategoryId = d.nextCategoryId + 1 := by rw [h1.2.2]
              have hrun := run_nextCategoryId_le ops s
              rw [happ]
              omega
            · exact ih _ i hi
      all_goals simp only [issuedCategoryIds, List.nil_append] at hi
      all_goals exact ih _ i hi

theorem issuedLinkIds_nodup (ops : List Op) :
    ∀ d : DocState, (issuedLinkIds d ops).Nodup := by
  induction ops with
  | nil => intro d; simp [issuedLinkIds]
  | cons op ops ih =>
      intro d
      cases op
      case createLink now n u c =>
        simp only [issuedLinkIds]
        cases hc : createLink now n u c d with
        | error e =>
            simp only [List.nil_append]
            exact ih _
        | ok v =>
            obtain ⟨l, s⟩ := v
            simp only [List.singleton_append, List.nodup_cons]
            refine ⟨?_, ih _⟩
            intro hmem
            have hge := issuedLinkIds_ge ops (applyOp d (Op.createLink now n u c)) l.id hmem
            have happ : applyOp d (Op.createLink now n u c) = s := by
              simp [applyOp, hc]
            have h1 := createLink_ok hc
            have hid : l.id = d.nextId := by rw [h1.2.1]; rfl
            have hs : s.nextId = d.nextId + 1 := by rw [h1.2.2]
            rw [happ] at hge
            omega
      all_goals simp only [issuedLinkIds, List.nil_append]
      all_goals exact ih _

theorem issuedCategoryIds_nodup (ops : List Op) :
    ∀ d : DocState, (issuedCategoryIds d ops).Nodup := by
  induction ops with
  | nil => intro d; simp [issuedCategoryIds]
  | cons op ops ih =>
      intro d
      cases op
      case createCategory now n =>
        simp only [issuedCategoryIds]
        cases hc : createCategory now n d with
        | error e =>
            simp only [List.nil_append]
            exact ih _
        | ok v =>
            obtain ⟨cat, s⟩ := v
            simp only [List.singleton_append, List.nodup_cons]
            refine ⟨?_, ih _⟩
            intro hmem
            have hge := issuedCategoryIds_ge ops (applyOp d (Op.createCategory now n))
              cat.id hmem
            have happ : applyOp d (Op.createCategory now n) = s := by
              simp [applyOp, hc]
            have h1 := createCategory_ok hc
            have hid : cat.id = d.nextCategoryId := by rw [h1.2.1]; rfl
            have hs : s.nextCategoryId = d.nextCategoryId + 1 := by rw [h1.2.2]
            rw [happ] at hge
            omega
      all_goals simp only [issuedCategoryIds, List.nil_append]
      all_goals exact ih _

/-! ## Referential-integrity machinery -/

theorem linkRefsValid_iff (d : DocState) :
    linkRefsValid d = true ↔
      ∀ l ∈ d.links, ∀ k, l.categoryId = some k → catHas d k = true := by
  unfold linkRefsValid
  rw [List.all_eq_true]
  constructor
  · intro H l hl k hk
    have h := H l hl
    rw [hk] at h
    exact h
  · intro H l hl
    cases hcid : l.categoryId with
    | none => rfl
    | some k => exact H l hl k hcid

theorem foldl_applyAssignment_any {q : Category → Bool}
    (h : ∀ (x : Category) (o : Int), q { x with order := o } = q x) :
    ∀ (asg : List (Int × Int)) (cats : List Category),
      (asg.foldl applyAssignment cats).any q = cats.any q := by
  intro asg
  induction asg with
  | nil => intro cats; rfl
  | cons a asg ih =>
      intro cats
      rw [List.foldl_cons, ih]
      exact mapFirst_any (fun x => h x a.2) cats

theorem linkRefsValid_step (d : DocState) (op : Op)
    (h : linkRefsValid d = true) (hop : opCidOk d op) :
    linkRefsValid (applyOp d op) = true := by
  cases op
  case createLink now n u c =>
    simp only [applyOp]
    cases hc : createLink now n u c d with
    | error e => exact h
    | ok v =>
        obtain ⟨l, s⟩ := v
        obtain ⟨-, hl, rfl⟩ := createLink_ok hc
        rw [linkRefsValid_iff] at h ⊢
        intro x hx k hk
        rcases List.mem_append.mp hx with hx | hx
        · exact h x hx k hk
        · rw [List.mem_singleton] at hx
          subst hx
          rw [hl] at hk
          exact hop k hk
  case updateLink now i n u c =>
    simp only [applyOp]
    cases hc : updateLink now i n u c d with
    | error e => exact h
    | ok v =>
        obtain ⟨l, s⟩ := v
        obtain ⟨-, old, hold, hl, rfl⟩ := updateLink_ok hc
        rw [linkRefsValid_iff] at h ⊢
        intro x hx k hk
        rcases mem_mapFirst hx with hx | ⟨y, hy, rfl⟩
        · exact h x hx k hk
        · exact hop k hk
  case deleteLink i =>
    simp only [applyOp]
    cases hc : deleteLink i d with
    | error e => exact h
    | ok d' =>
        obtain ⟨-, rfl⟩ := deleteLink_ok hc
        rw [linkRefsValid_iff] at h ⊢
        intro x hx k hk
        exact h x (eraseFirst_subset hx) k hk
  case createCategory now n =>
    simp only [applyOp]
    cases hc : createCategory now n d with
    | error e => exact h
    | ok v =>
        obtain ⟨cat, s⟩ := v
        obtain ⟨-, -, rfl⟩ := createCategory_ok hc
        rw [linkRefsValid_iff] at h ⊢
        intro x hx k hk
        have hd := h x hx k hk
        show (d.categories ++ [cat]).any (fun c => c.id == k) = true
        rw [List.any_append]
        rw [catHas] at hd
        rw [hd]
        rfl
  case deleteCategory i =>
    simp only [applyOp]
    cases hc : deleteCategory i d with
    | error e => exact h
    | ok d' =>
        obtain ⟨cat, hcat, hdef, rfl⟩ := deleteCategory_ok hc
        rw [linkRefsValid_iff] at h ⊢
        intro x hx k hk
        rcases List.mem_map.mp hx with ⟨y, hy, rfl⟩
        by_cases ho : (y.categoryId == some i) = true
        · rw [orphanLink, if_pos ho] at hk
          exact absurd hk (by simp)
        · have ho' : (y.categoryId == some i) = false := by
            revert ho; cases y.categoryId == some i <;> simp
          rw [orphanLink, if_neg (by simp [ho'])] at hk
          have hd := h y hy k hk
          rw [catHas] at hd
          obtain ⟨cc, hcc, hgood⟩ := List.any_eq_true.mp hd
          have hkne : k ≠ i := by
            intro hki
            rw [hk, hki] at ho'
            simp at ho'
          have hccne : (cc.id == i) = false := by
            rw [beq_eq_false_iff_ne]
            rw [beq_iff_eq.mp hgood]
            exact hkne
          show (eraseFirst (fun c => c.id == i) d.categories).any
              (fun c => c.id == k) = true
          exact List.any_eq_true.mpr ⟨cc, mem_eraseFirst_of_false hcc hccne, hgood⟩
  case setPrivacy i p =>
    simp only [applyOp]
    cases hc : setPrivacy i p d with
    | error e => exact h
    | ok v =>
        obtain ⟨cat', s⟩ := v
        obtain ⟨cat, hcat, -, rfl⟩ := setPrivacy_ok hc
        rw [linkRefsValid_iff] at h ⊢
        intro x hx k hk
        have hd := h x hx k hk
        rw [catHas] at hd
        show (mapFirst (fun c => c.id == i)
            (fun c => { c with «private» := p.getD false }) d.categories).any
            (fun c => c.id == k) = true
        rw [@mapFirst_any Category (fun c => c.id == i) (fun c => c.id == k)
            (fun c => { c with «private» := p.getD false }) (fun x => rfl) d.categories]
        exact hd
  case reorderCategories a =>
    simp only [applyOp]
    cases hc : reorderCategories a d with
    | error e => exact h
    | ok d' =>
        obtain rfl := reorderCategories_ok hc
        rw [linkRefsValid_iff] at h ⊢
        intro x hx k hk
        have hd := h x hx k hk
        rw [catHas] at hd
        show (sortByOrder (a.foldl applyAssignment d.categories)).any
            (fun c => c.id == k) = true
        rw [sortByOrder_any,
            @foldl_applyAssignment_any (fun c => c.id == k) (fun x o => rfl)
              a d.categories]
        exact hd

theorem linkRefsValid_run (ops : List Op) :
    ∀ d : DocState, linkRefsValid d = true → opsCategoryIdsValid d ops →
      linkRefsValid (run d ops) = true := by
  induction ops with
  | nil => intro d h _; exact h
  | cons op ops ih =>
      intro d h hops
      obtain ⟨h1, h2⟩ := hops
      rw [run_cons]
      exact ih _ (linkRefsValid_step d op h h1) h2

theorem ensureNav_post (now : Nat) (d : DocState) :
    ((ensureNavigationCategory now d).categories.any
      (fun c => c.name == "NAVIGATION" && c.isDefault)) = true := by
  unfold ensureNavigationCategory
  split
  · next h => exact h
  · simp [navCategory]

/-! ## Claim theorems -/

/-- Claim C4, counterexample: when reading or parsing the data file throws,
loadData catches the error but skips the category-default repair (it sits
inside the try block), so the loaded store has no categories at all and in
particular no default category with id -1 — the claim's "always concludes
by running the category-default repair" is false for this input. -/
theorem load_repair_skipped_cex :
    (loadData 0 .unreadable).categories = [] ∧
    ((loadData 0 .unreadable).categories.any
      (fun c => c.id == -1 && c.isDefault)) = false := ⟨rfl, rfl⟩

/-- Claim C4, amended: loadData never throws and falls back to the in-memory
defaults for whatever could not be read; the category-default repair runs
whenever reading and parsing raised no exception (a missing file included),
but is skipped when they throw, leaving the all-default document with no
categories; a fresh store with no persisted file lists exactly one category,
the default NAVIGATION category with id -1. -/
theorem loadData_spec :
    ∀ now : Nat,
      (loadData now .missing).categories = [navCategory now] ∧
      listCategories (loadData now .missing) = [navCategory now] ∧
      (navCategory now).id = -1 ∧
      (navCategory now).isDefault = true ∧
      loadData now .unreadable = defaultData ∧
      (loadData now .unreadable).categories = [] ∧
      ∀ p : PersistedDoc,
        ((loadData now (.parsed p)).categories.any
          (fun c => c.name == "NAVIGATION" && c.isDefault)) = true := by
  intro now
  refine ⟨rfl, rfl, rfl, rfl, rfl, rfl, ?_⟩
  intro p
  exact ensureNav_post now _

/-- Claim C6: a primaryColor value failing the 6-digit hex test is rejected
with a validation error and leaves the document unchanged; "#ABCDEF" is
accepted, wholesale-replaces colorConfig, and a subsequent get returns it
unchanged. -/
theorem color_config_spec :
    ∀ (d : DocState) (s : String),
      (isHexColor s = false →
        (∃ m, setColorConfig s d = .error (.validation m)) ∧
        runSetColorConfig s d = d) ∧
      (isHexColor "#ABCDEF" = true ∧
       setColorConfig "#ABCDEF" d =
         .ok { d with colorConfig := { primaryColor := some "#ABCDEF" } } ∧
       getColorConfig (runSetColorConfig "#ABCDEF" d) =
         { primaryColor := some "#ABCDEF" }) := by
  intro d s
  constructor
  · intro hbad
    by_cases hreq : requiredOk s = true
    · have herr : setColorConfig s d =
          .error (.validation "Valid hex color code is required") := by
        simp [setColorConfig, hreq, hbad]
      exact ⟨⟨_, herr⟩, by unfold runSetColorConfig; rw [herr]⟩
    · have hreq' : requiredOk s = false := by
        revert hreq; cases requiredOk s <;> simp
      have herr : setColorConfig s d =
          .error (.validation "Missing required fields") := by
        simp [setColorConfig, hreq']
      exact ⟨⟨_, herr⟩, by unfold runSetColorConfig; rw [herr]⟩
  · have h1 : requiredOk "#ABCDEF" = true := by decide
    have h2 : isHexColor "#ABCDEF" = true := by decide
    have hok : setColorConfig "#ABCDEF" d =
        .ok { d with colorConfig := { primaryColor := some "#ABCDEF" } } := by
      simp [setColorConfig, h1, h2]
    exact ⟨h2, hok, by unfold runSetColorConfig getColorConfig; rw [hok]⟩

/-- Claim C6, witness: the color update with "bad" on the fresh store errors
and mutates nothing. -/
theorem color_config_spec_witness :
    (∃ m, setColorConfig "bad" initialState = .error (.validation m)) ∧
    runSetColorConfig "bad" initialState = initialState :=
  (color_config_spec initialState "bad").1 (by decide)

/-- Claim C7, code bug: line 145 of server.js already replaced the default
filterConfig wholesale with the loaded object, so the later "deep merge" of
lines 151-153 spreads the loaded filterConfig with itself and is a no-op —
a persisted file whose filterConfig lacks the keyword key loads with no
keyword at all instead of falling back to the default sentinel, contradicting
the comment "Deep-merge nested config objects to preserve new keys added in
future versions". -/
theorem filter_merge_noop_bug :
    (loadData 0 (.parsed oldFilterFile)).filterConfig =
      { enabled := some true, keyword := none } ∧
    (loadData 0 (.parsed oldFilterFile)).filterConfig.keyword ≠
      defaultData.filterConfig.keyword ∧
    defaultData.filterConfig.keyword = some "</think>" := by
  refine ⟨rfl, ?_, rfl⟩
  intro h
  exact Option.noConfusion h

/-- Claim C10: setPrivacy fails only with NotFound; for every present id —
the protected default category included, since the handler performs no
isDefault check — the update succeeds and stores the boolean coercion of the
supplied value, touching nothing but that category's private flag. -/
theorem set_privacy_spec :
    ∀ (d : DocState) (id : Int) (p : Option Bool),
      (∀ e, setPrivacy id p d = .error e → ∃ m, e = .notFound m) ∧
      (d.categories.find? (fun c => c.id == id) = none →
        setPrivacy id p d = .error (.notFound "Category not found") ∧
        applyOp d (.setPrivacy id p) = d) ∧
      (∀ cat, d.categories.find? (fun c => c.id == id) = some cat →
        ∃ d', setPrivacy id p d =
            .ok ({ cat with «private» := p.getD false }, d') ∧
          ∃ pre suf, (∀ x ∈ pre, (x.id == id) = false) ∧
            d.categories = pre ++ cat :: suf ∧
            d'.categories = pre ++ { cat with «private» := p.getD false } :: suf ∧
            d'.links = d.links ∧ d'.nextId = d.nextId ∧
            d'.nextCategoryId = d.nextCategoryId) := by
  intro d id p
  refine ⟨?_, ?_, ?_⟩
  · intro e he
    unfold setPrivacy at he
    split at he
    · simp only [Except.error.injEq] at he
      exact ⟨_, he.symm⟩
    · exact absurd he (by simp)
  · intro hnone
    constructor
    · unfold setPrivacy
      rw [hnone]
    · simp [applyOp, setPrivacy, hnone]
  · intro cat hcat
    have hok : setPrivacy id p d = .ok ({ cat with «private» := p.getD false }, { d with categories := mapFirst (fun c => c.id == id) (fun c => { c with «private» := p.getD false }) d.categories }) := by
      unfold setPrivacy
      rw [hcat]
    refine ⟨_, hok, ?_⟩
    obtain ⟨pre, suf, hsplit, hpre, hpa⟩ := find?_eq_some_split hcat
    refine ⟨pre, suf, hpre, hsplit, ?_, rfl, rfl, rfl⟩
    show mapFirst (fun c => c.id == id)
        (fun c => { c with «private» := p.getD false }) d.categories =
      pre ++ { cat with «private» := p.getD false } :: suf
    rw [hsplit, mapFirst_append_false _ hpre, mapFirst_cons_pos suf]
    exact hpa

/-- Claim C5, counterexample: creating category "Tools" against the freshly
initialized store yields order 1, not the claimed order 0, because the
handler sets order to the total category count and the default NAVIGATION
category is already present. -/
theorem create_category_order_cex :
    ((createCategory 0 "Tools" initialState).toOption.map
        (fun r => (r.1.id, r.1.order, r.1.«private», r.1.isDefault))) =
      some (1, 1, false, false) ∧
    ¬ ((createCategory 0 "Tools" initialState).toOption.map
        (fun r => r.1.order)) = some 0 := by
  refine ⟨rfl, ?_⟩
  intro h
  rw [show ((createCategory 0 "Tools" initialState).toOption.map
      (fun r => r.1.order)) = some 1 from rfl] at h
  simp at h

/-- Claim C5, amended: create(name) with a non-empty trimmed name assigns
id = nextCategoryId (then increments it), order = the current total category
count (the default category included), private = false, isDefault = false;
in the fresh store, creating "Tools" therefore returns id 1 and order 1. -/
theorem create_category_spec :
    (∀ (d : DocState) (now : Nat) (name : String), requiredOk name = true →
      ∃ cat d', createCategory now name d = .ok (cat, d') ∧
        cat.id = d.nextCategoryId ∧
        d'.nextCategoryId = d.nextCategoryId + 1 ∧
        cat.order = (d.categories.length : Int) ∧
        cat.«private» = false ∧ cat.isDefault = false ∧
        cat.name = jsTrim name ∧
        d'.categories = d.categories ++ [cat] ∧
        d'.links = d.links ∧ d'.nextId = d.nextId) ∧
    ((createCategory 0 "Tools" initialState).toOption.map
        (fun r => (r.1.id, r.1.order, r.1.«private», r.1.isDefault))) =
      some (1, 1, false, false) := by
  constructor
  · intro d now name hname
    have hok : createCategory now name d = .ok (newCategoryOf now name d,
        { d with nextCategoryId := d.nextCategoryId + 1
                 categories := d.categories ++ [newCategoryOf now name d] }) := by
      unfold createCategory
      rw [hname]
      rfl
    exact ⟨_, _, hok, rfl, rfl, rfl, rfl, rfl, rfl, rfl, rfl, rfl⟩
  · rfl

/-- Claim C5, witness: the amended statement evaluated on the fresh store
with name "Tools". -/
theorem create_category_spec_witness :
    ∃ cat d', createCategory 0 "Tools" initialState = .ok (cat, d') ∧
      cat.id = initialState.nextCategoryId ∧
      d'.nextCategoryId = initialState.nextCategoryId + 1 ∧
      cat.order = (initialState.categories.length : Int) ∧
      cat.«private» = false ∧ cat.isDefault = false ∧
      cat.name = jsTrim "Tools" ∧
      d'.categories = initialState.categories ++ [cat] ∧
      d'.links = initialState.links ∧ d'.nextId = initialState.nextId :=
  create_category_spec.1 initialState 0 "Tools" (by decide)

/-- Claim C1: category deletion fails with NotFound when no category has the
id (state unchanged), fails with the forbidden message when the target is
the default category (state unchanged), and otherwise removes exactly that
category (count drops by one), nulls the categoryId of exactly the links
that referenced it, and leaves every other link and both counters intact. -/
theorem delete_category_spec :
    ∀ (d : DocState) (id : Int),
      (d.categories.find? (fun c => c.id == id) = none →
        deleteCategory id d = .error (.notFound "Category not found") ∧
        applyOp d (.deleteCategory id) = d) ∧
      (∀ cat, d.categories.find? (fun c => c.id == id) = some cat →
        cat.isDefault = true →
        deleteCategory id d =
          .error (.forbidden "Cannot delete default system category") ∧
        applyOp d (.deleteCategory id) = d) ∧
      (∀ cat, d.categories.find? (fun c => c.id == id) = some cat →
        cat.isDefault = false →
        ∃ d', deleteCategory id d = .ok d' ∧
          d'.categories.length + 1 = d.categories.length ∧
          List.Forall₂ (fun a b =>
              (a.categoryId = some id → b = { a with categoryId := none }) ∧
              (¬ a.categoryId = some id → b = a))
            d.links d'.links ∧
          d'.nextId = d.nextId ∧ d'.nextCategoryId = d.nextCategoryId) := by
  intro d id
  refine ⟨?_, ?_, ?_⟩
  · intro hnone
    constructor
    · unfold deleteCategory
      rw [hnone]
    · simp [applyOp, deleteCategory, hnone]
  · intro cat hcat hdef
    have herr : deleteCategory id d =
        .error (.forbidden "Cannot delete default system category") := by
      simp [deleteCategory, hcat, hdef]
    exact ⟨herr, by simp [applyOp, herr]⟩
  · intro cat hcat hdef
    have hok : deleteCategory id d = .ok { d with
        links := d.links.map (orphanLink id)
        categories := eraseFirst (fun c => c.id == id) d.categories } := by
      simp [deleteCategory, hcat, hdef]
    refine ⟨_, hok, ?_, ?_, rfl, rfl⟩
    · obtain ⟨pre, suf, hsplit, hpre, hpa⟩ := find?_eq_some_split hcat
      show (eraseFirst (fun c => c.id == id) d.categories).length + 1 =
        d.categories.length
      rw [hsplit, eraseFirst_append_false _ hpre, eraseFirst_cons_pos suf]
      · simp [List.length_append]
        omega
      · exact hpa
    · show List.Forall₂ _ d.links (d.links.map (orphanLink id))
      apply forall₂_map_self
      intro a
      constructor
      · intro ha
        have hbeq : (a.categoryId == some id) = true := beq_iff_eq.mpr ha
        simp [orphanLink, hbeq]
      · intro ha
        have hbeq : (a.categoryId == some id) = false := beq_eq_false_iff_ne.mpr ha
        simp [orphanLink, hbeq]

/-- Claim C1, witness: deleting the Tools category (id 1, not default) from
the store holding it succeeds with the stated effects. -/
theorem delete_category_spec_witness :
    ∃ d', deleteCategory 1 storeWithTools = .ok d' ∧
      d'.categories.length + 1 = storeWithTools.categories.length ∧
      List.Forall₂ (fun a b =>
          (a.categoryId = some 1 → b = { a with categoryId := none }) ∧
          (¬ a.categoryId = some 1 → b = a))
        storeWithTools.links d'.links ∧
      d'.nextId = storeWithTools.nextId ∧
      d'.nextCategoryId = storeWithTools.nextCategoryId :=
  (delete_category_spec storeWithTools 1).2.2 toolsCategory (by decide) (by decide)

/-- Claim C9: a link update with a valid payload and a present id replaces
exactly name, url, categoryId and updatedAt of the first link with that id,
preserves its id and createdAt, leaves every other link and the rest of the
document untouched, and fails with NotFound (no state change) when the id is
absent. -/
theorem update_link_spec :
    ∀ (d : DocState) (now : Nat) (id : Int) (n u : String) (c : Option Int),
      requiredOk n = true → requiredOk u = true →
      (d.links.find? (fun l => l.id == id) = none →
        updateLink now id n u c d = .error (.notFound "Link not found") ∧
        applyOp d (.updateLink now id n u c) = d) ∧
      (∀ old, d.links.find? (fun l => l.id == id) = some old →
        ∃ lk d', updateLink now id n u c d = .ok (lk, d') ∧
          lk.id = old.id ∧ lk.createdAt = old.createdAt ∧
          lk.name = jsTrim n ∧ lk.url = jsTrim u ∧
          lk.categoryId = coerceCategoryId c ∧ lk.updatedAt = some now ∧
          d'.categories = d.categories ∧ d'.nextId = d.nextId ∧
          d'.nextCategoryId = d.nextCategoryId ∧
          ∃ pre suf, (∀ x ∈ pre, (x.id == id) = false) ∧
            d.links = pre ++ old :: suf ∧ d'.links = pre ++ lk :: suf) := by
  intro d now id n u c hn hu
  constructor
  · intro hnone
    constructor
    · simp [updateLink, hn, hu, hnone]
    · simp [applyOp, updateLink, hn, hu, hnone]
  · intro old hold
    have hok : updateLink now id n u c d = .ok (updateLinkFields now n u c old, { d with links := mapFirst (fun l => l.id == id) (updateLinkFields now n u c) d.links }) := by
      simp [updateLink, hn, hu, hold]
    refine ⟨_, _, hok, rfl, rfl, rfl, rfl, rfl, rfl, rfl, rfl, rfl, ?_⟩
    obtain ⟨pre, suf, hsplit, hpre, hpa⟩ := find?_eq_some_split hold
    refine ⟨pre, suf, hpre, hsplit, ?_⟩
    show mapFirst (fun l => l.id == id) (updateLinkFields now n u c) d.links =
      pre ++ updateLinkFields now n u c old :: suf
    rw [hsplit, mapFirst_append_false _ hpre, mapFirst_cons_pos suf]
    exact hpa

/-- Claim C9, witness: updating the Router link (id 1) in the store holding
it replaces the three mutable fields and updatedAt only. -/
theorem update_link_spec_witness :
    ∃ lk d', updateLink 7 1 "Router2" "http://r2" none storeWithRouter =
        .ok (lk, d') ∧
      lk.id = routerLink.id ∧ lk.createdAt = routerLink.createdAt ∧
      lk.name = jsTrim "Router2" ∧ lk.url = jsTrim "http://r2" ∧
      lk.categoryId = coerceCategoryId none ∧ lk.updatedAt = some 7 ∧
      d'.categories = storeWithRouter.categories ∧
      d'.nextId = storeWithRouter.nextId ∧
      d'.nextCategoryId = storeWithRouter.nextCategoryId ∧
      ∃ pre suf, (∀ x ∈ pre, (x.id == (1 : Int)) = false) ∧
        storeWithRouter.links = pre ++ routerLink :: suf ∧
        d'.links = pre ++ lk :: suf :=
  (update_link_spec storeWithRouter 7 1 "Router2" "http://r2" none
    (by decide) (by decide)).2 routerLink (by decide)

/-- Claim C10, witness: the privacy of the default NAVIGATION category
(id -1, isDefault true) can be set to true on the fresh store. -/
theorem set_privacy_spec_witness :
    ∃ d', setPrivacy (-1) (some true) initialState =
        .ok ({ navCategory 0 with «private» := true }, d') ∧
      ∃ pre suf, (∀ x ∈ pre, (x.id == (-1 : Int)) = false) ∧
        initialState.categories = pre ++ navCategory 0 :: suf ∧
        d'.categories = pre ++ { navCategory 0 with «private» := true } :: suf ∧
        d'.links = initialState.links ∧ d'.nextId = initialState.nextId ∧
        d'.nextCategoryId = initialState.nextCategoryId :=
  (set_privacy_spec initialState (-1) (some true)).2.2 (navCategory 0) (by decide)

/-- Claim C2: over every operation sequence from every starting document,
nextId and nextCategoryId never decrease, every issued link or category id
is strictly below the corresponding counter afterwards, and neither counter
ever hands out the same id twice, deletions notwithstanding. -/
theorem counter_spec :
    ∀ (d : DocState) (ops : List Op),
      d.nextId ≤ (run d ops).nextId ∧
      d.nextCategoryId ≤ (run d ops).nextCategoryId ∧
      (∀ i ∈ issuedLinkIds d ops, i < (run d ops).nextId) ∧
      (∀ i ∈ issuedCategoryIds d ops, i < (run d ops).nextCategoryId) ∧
      (issuedLinkIds d ops).Nodup ∧
      (issuedCategoryIds d ops).Nodup := by
  intro d ops
  exact ⟨run_nextId_le ops d, run_nextCategoryId_le ops d,
         fun i hi => issuedLinkIds_lt ops d i hi,
         fun i hi => issuedCategoryIds_lt ops d i hi,
         issuedLinkIds_nodup ops d, issuedCategoryIds_nodup ops d⟩

/-- Claim C2, witness: on a trace that creates link 1, deletes it, and
creates again, the second creation issues 2 (never 1 again) and both issued
ids stay below the final counter. -/
theorem counter_spec_witness :
    (1 : Int) ∈ issuedLinkIds initialState traceFixture ∧
    (1 : Int) < (run initialState traceFixture).nextId ∧
    (issuedLinkIds initialState traceFixture).Nodup ∧
    issuedLinkIds initialState traceFixture = [1, 2] :=
  ⟨by decide, (counter_spec initialState traceFixture).2.2.1 1 (by decide),
   (counter_spec initialState traceFixture).2.2.2.2.1, by decide⟩

/-- Claim C3, counterexample: the claim fails as stated because link
creation (and update) never validates categoryId — creating a link with
categoryId 5 in the fresh store, where no category 5 exists, leaves a
non-null categoryId that refers to no category. -/
theorem link_refs_cex :
    linkRefsValid initialState = true ∧
    linkRefsValid
      (run initialState [Op.createLink 0 "Router" "http://r" (some 5)]) = false :=
  ⟨rfl, rfl⟩

/-- Claim C3, amended: provided every categoryId handed to link create or
update names a category existing at that moment (the handlers themselves do
not check this), referential integrity holds after every operation
sequence; and a successful category deletion nulls the categoryId of
exactly the links that referenced the deleted id, leaving all other links'
categoryId values unchanged. -/
theorem link_refs_spec :
    (∀ (d : DocState) (ops : List Op),
      linkRefsValid d = true → opsCategoryIdsValid d ops →
      linkRefsValid (run d ops) = true) ∧
    (∀ (d : DocState) (id : Int) (d' : DocState),
      deleteCategory id d = .ok d' →
      List.Forall₂ (fun a b =>
          (∀ k, a.categoryId = some k → k ≠ id → b.categoryId = some k) ∧
          (a.categoryId = some id → b.categoryId = none) ∧
          (a.categoryId = none → b.categoryId = none))
        d.links d'.links) := by
  constructor
  · intro d ops h hops
    exact linkRefsValid_run ops d h hops
  · intro d id d' h
    obtain ⟨cat, hcat, hdef, rfl⟩ := deleteCategory_ok h
    apply forall₂_map_self
    intro a
    refine ⟨?_, ?_, ?_⟩
    · intro k hk hkne
      have hbeq : (a.categoryId == some id) = false := by
        rw [beq_eq_false_iff_ne, hk]
        intro hEq
        exact hkne (by injection hEq)
      simp [orphanLink, hbeq, hk, hkne]
    · intro ha
      have hbeq : (a.categoryId == some id) = true := beq_iff_eq.mpr ha
      simp [orphanLink, hbeq]
    · intro ha
      have hbeq : (a.categoryId == some id) = false := by
        rw [beq_eq_false_iff_ne, ha]
        simp
      simp [orphanLink, hbeq, ha]

/-- Claim C3, witness: a trace that creates the Tools category and then a
link referencing it keeps referential integrity. -/
theorem link_refs_spec_witness :
    linkRefsValid (run initialState
      [Op.createCategory 0 "Tools", Op.createLink 0 "R" "http://r" (some 1)]) =
      true :=
  link_refs_spec.1 initialState
    [Op.createCategory 0 "Tools", Op.createLink 0 "R" "http://r" (some 1)]
    (by decide)
    ⟨trivial,
     fun k hk => by
       have hk' : k = 1 := by
         simp [coerceCategoryId] at hk
         omega
       subst hk'
       decide,
     trivial⟩

/-- Claim C8, counterexample: from a document that already contains a link
whose id equals nextId, create–update–delete on the id returned by create
(id 1) does not restore the link set: update and delete hit the pre-existing
link with the same id, leaving the newly created one behind. -/
theorem link_round_trip_cex :
    ((createLink 0 "new" "http://n" none staleCounterState).toOption.map
        (fun r => r.1.id)) = some 1 ∧
    (run staleCounterState
        [Op.createLink 0 "new" "http://n" none,
         Op.updateLink 1 1 "upd" "http://u" none,
         Op.deleteLink 1]).links ≠ staleCounterState.links := by
  refine ⟨rfl, ?_⟩
  intro h
  have h2 : (run staleCounterState
      [Op.createLink 0 "new" "http://n" none,
       Op.updateLink 1 1 "upd" "http://u" none,
       Op.deleteLink 1]).links.map (fun l => l.name) =
      staleCounterState.links.map (fun l => l.name) := by rw [h]
  revert h2
  decide

/-- Claim C8, amended: from every document in which no existing link already
carries the id nextId (true of every state the API itself produces), a valid
create, an update on the returned id, and a delete of that id succeed and
leave the link list exactly as it was before the create. -/
theorem link_round_trip :
    ∀ (d : DocState) (t t' : Nat) (n u n' u' : String) (c c' : Option Int),
      requiredOk n = true → requiredOk u = true →
      requiredOk n' = true → requiredOk u' = true →
      (∀ l ∈ d.links, l.id ≠ d.nextId) →
      ∃ lk d₁ lk' d₂ d₃,
        createLink t n u c d = .ok (lk, d₁) ∧
        updateLink t' lk.id n' u' c' d₁ = .ok (lk', d₂) ∧
        deleteLink lk.id d₂ = .ok d₃ ∧
        d₃.links = d.links := by
  intro d t t' n u n' u' c c' hn hu hn' hu' hfresh
  have hok1 : createLink t n u c d = .ok (newLinkOf t n u c d,
      { d with nextId := d.nextId + 1, links := d.links ++ [newLinkOf t n u c d] }) := by
    unfold createLink
    rw [hn, hu]
    rfl
  have hprefalse : ∀ x ∈ d.links, (x.id == (newLinkOf t n u c d).id) = false := by
    intro x hx
    rw [beq_eq_false_iff_ne]
    exact hfresh x hx
  have hfind1 : (d.links ++ [newLinkOf t n u c d]).find?
      (fun l => l.id == (newLinkOf t n u c d).id) = some (newLinkOf t n u c d) := by
    rw [find?_append_false _ hprefalse]
    exact List.find?_cons_of_pos _ (by simp)
  have hmap1 : mapFirst (fun l => l.id == (newLinkOf t n u c d).id)
      (updateLinkFields t' n' u' c') (d.links ++ [newLinkOf t n u c d]) =
      d.links ++ [updateLinkFields t' n' u' c' (newLinkOf t n u c d)] := by
    rw [mapFirst_append_false _ hprefalse, mapFirst_cons_pos]
    simp
  have hok2 : updateLink t' (newLinkOf t n u c d).id n' u' c'
      { d with nextId := d.nextId + 1, links := d.links ++ [newLinkOf t n u c d] } =
      .ok (updateLinkFields t' n' u' c' (newLinkOf t n u c d),
        { d with nextId := d.nextId + 1,
                 links := d.links ++ [updateLinkFields t' n' u' c' (newLinkOf t n u c d)] }) := by
    simp [updateLink, hn', hu', hfind1, hmap1]
  have hfind2 : (d.links ++ [updateLinkFields t' n' u' c' (newLinkOf t n u c d)]).find?
      (fun l => l.id == (newLinkOf t n u c d).id) =
      some (updateLinkFields t' n' u' c' (newLinkOf t n u c d)) := by
    rw [find?_append_false _ hprefalse]
    exact List.find?_cons_of_pos _ (by simp [updateLinkFields])
  have herase : eraseFirst (fun l => l.id == (newLinkOf t n u c d).id)
      (d.links ++ [updateLinkFields t' n' u' c' (newLinkOf t n u c d)]) = d.links := by
    rw [eraseFirst_append_false _ hprefalse, eraseFirst_cons_pos]
    · exact List.append_nil d.links
    · simp [updateLinkFields]
  have hok3 : deleteLink (newLinkOf t n u c d).id
      { d with nextId := d.nextId + 1,
               links := d.links ++ [updateLinkFields t' n' u' c' (newLinkOf t n u c d)] } =
      .ok { d with nextId := d.nextId + 1, links := d.links } := by
    simp [deleteLink, hfind2, herase]
  exact ⟨_, _, _, _, _, hok1, hok2, hok3, rfl⟩

/-- Claim C8, witness: the round trip on the fresh store (no links, nextId 1)
restores the empty link list. -/
theorem link_round_trip_witness :
    ∃ lk d₁ lk' d₂ d₃,
      createLink 3 "A" "http://a" none initialState = .ok (lk, d₁) ∧
      updateLink 4 lk.id "B" "http://b" none d₁ = .ok (lk', d₂) ∧
      deleteLink lk.id d₂ = .ok d₃ ∧
      d₃.links = initialState.links :=
  link_round_trip initialState 3 4 "A" "http://a" "B" "http://b" none none
    (by decide) (by decide) (by decide) (by decide) (by decide)

end ServerCrate
